import Mathlib

/-!
# A verification development for `myMalloc.c`

The allocator keeps an explicit, address-ordered, doubly-linked free list whose
nodes are the block headers themselves, and moves the program break with
`sbrk`/`brk`.

## Embedding

* Addresses, sizes and pointers are natural numbers below `WORD = 2 ^ 64`
  (`unsigned long`, `size_t` and pointers of an LP64 platform); every
  arithmetic expression of the source is reduced modulo `WORD` where the C
  expression can wrap.  `NULL` is `0`, `sizeof( block )` is `24`.
* Memory is modelled at header granularity: `Heap.mem a` is the header stored
  at address `a`; headers stored at different addresses are independent cells.
* Dereferencing `NULL`, or a pointer whose header would not fit below the top
  of the address space (for instance `(void *) -1`), stops the program:
  `Err.fault a`.
* The operating system is the field `osAccepts`: `brk( a )` succeeds exactly
  when `osAccepts a`, `sbrk( n )` is `brk( current + n )` with the previous
  break as its result and `(void *) -1` on refusal.
* Loops take a fuel argument; running out of fuel is `Err.fuel`.
* `printf` has no effect on the allocator state and is left out; the list
  traversal of `stats` is kept.
-/

namespace MallocFree

/-- Modulus of `unsigned long`, `size_t` and pointer values. -/
def WORD : Nat := 2 ^ 64

/-- The value of `sizeof( block )`: two pointers and a `size_t`. -/
def sizeofBlock : Nat := 24

/-- The C struct `block_metadata`. -/
structure block where
  prev : Nat
  next : Nat
  size : Nat

/-- The two compile-time parameters `ALLOC_UNIT` and `MIN_DEALLOC`. -/
structure Config where
  ALLOC_UNIT : Nat
  MIN_DEALLOC : Nat

/-- Value of `sysconf( _SC_PAGESIZE )` used for the default configuration. -/
def pageSize : Nat := 4096

/-- Default configuration: the `#ifndef` branches of the source. -/
def defaultConfig : Config :=
  { ALLOC_UNIT := 3 * pageSize, MIN_DEALLOC := 1 * pageSize }

/-- Process state seen by the allocator: the global `head`, the program break,
the operating system's answer to a requested break, and the memory. -/
structure Heap where
  head : Nat
  brk : Nat
  osAccepts : Nat → Bool
  mem : Nat → block

/-- Abnormal outcomes: an invalid dereference at an address, or no fuel left. -/
inductive Err where
  | fault (addr : Nat)
  | fuel
  deriving DecidableEq, Repr

/-- Check performed when the header at `p` is read or written. -/
def deref (p : Nat) : Except Err Unit :=
  if p = 0 ∨ WORD ≤ p + sizeofBlock then Except.error (Err.fault p) else Except.ok ()

/-- The assignment `p->prev = v`. -/
def setPrev (s : Heap) (p v : Nat) : Heap :=
  { s with mem := fun a => if a = p then { s.mem a with prev := v } else s.mem a }

/-- The assignment `p->next = v`. -/
def setNext (s : Heap) (p v : Nat) : Heap :=
  { s with mem := fun a => if a = p then { s.mem a with next := v } else s.mem a }

/-- The assignment `p->size = v`. -/
def setSize (s : Heap) (p v : Nat) : Heap :=
  { s with mem := fun a => if a = p then { s.mem a with size := v } else s.mem a }

/-- The macro `BLOCK_MEM`. -/
def BLOCK_MEM (ptr : Nat) : Nat := (ptr + sizeofBlock) % WORD

/-- The macro `BLOCK_HEADER`. -/
def BLOCK_HEADER (ptr : Nat) : Nat := (ptr + WORD - sizeofBlock) % WORD

/-- The library call `sbrk( increment )`; the argument is the 64-bit pattern of
the `intptr_t` increment, so values from `2 ^ 63` on move the break down. The
result is the new state and the returned pointer. -/
def sbrk (s : Heap) (increment : Nat) : Heap × Nat :=
  if increment = 0 then (s, s.brk)
  else if increment < 2 ^ 63 then
    if WORD ≤ s.brk + increment then (s, WORD - 1)
    else if s.osAccepts (s.brk + increment) then
      ({ s with brk := s.brk + increment }, s.brk)
    else (s, WORD - 1)
  else
    if s.brk < WORD - increment then (s, WORD - 1)
    else if s.osAccepts (s.brk - (WORD - increment)) then
      ({ s with brk := s.brk - (WORD - increment) }, s.brk)
    else (s, WORD - 1)

/-- The system call `brk( addr )`; the result is the new state and whether the
call returned `0`. -/
def brk (s : Heap) (addr : Nat) : Heap × Bool :=
  if s.osAccepts addr then ({ s with brk := addr }, true) else (s, false)

/-- The loop of `stats`: walk the free list from `ptr` to `NULL`. -/
def statsLoop : Nat → Heap → Nat → Except Err Unit
  | 0, _, _ => Except.error Err.fuel
  | fuel + 1, s, ptr =>
    if ptr = 0 then Except.ok ()
    else do
      deref ptr
      statsLoop fuel s (s.mem ptr).next

/-- The function `stats`, without its output. -/
def stats (fuel : Nat) (s : Heap) : Except Err Unit :=
  statsLoop fuel s s.head

/-- The function `splitBlock`: the new state and the new block. -/
def splitBlock (s : Heap) (b size : Nat) : Except Err (Heap × Nat) := do
  let newBlock := (b + sizeofBlock + size) % WORD
  deref b
  deref newBlock
  let s1 := setSize s newBlock (((s.mem b).size + WORD - (sizeofBlock + size) % WORD) % WORD)
  let s2 := setSize s1 b size
  pure (s2, newBlock)

/-- The `while` loop of `addToFreeList`: the value of `ptr` when it exits. -/
def addLoop : Nat → Heap → Nat → Nat → Except Err Nat
  | 0, _, _, _ => Except.error Err.fuel
  | fuel + 1, s, ptr, freeBlock => do
    deref ptr
    if (s.mem ptr).next ≠ 0 ∧ (s.mem ptr).next < freeBlock then
      addLoop fuel s (s.mem ptr).next freeBlock
    else pure ptr

/-- The function `addToFreeList`. -/
def addToFreeList (fuel : Nat) (s : Heap) (freeBlock : Nat) : Except Err Heap := do
  deref freeBlock
  let s1 := setNext s freeBlock 0
  let s2 := setPrev s1 freeBlock 0
  if s2.head = 0 ∨ s2.head ≥ freeBlock then
    let s3 ← (if s2.head ≠ 0 then do
                deref s2.head
                pure (setPrev s2 s2.head freeBlock)
              else pure s2)
    let s4 := setNext s3 freeBlock s3.head
    pure { s4 with head := freeBlock }
  else
    let ptr ← addLoop fuel s2 s2.head freeBlock
    let s3 := setNext s2 freeBlock (s2.mem ptr).next
    let s4 := setPrev s3 freeBlock ptr
    deref (s4.mem ptr).next
    let s5 := setPrev s4 (s4.mem ptr).next freeBlock
    let s6 := setNext s5 ptr freeBlock
    pure s6

/-- The function `removeFromFreeList`. -/
def removeFromFreeList (s : Heap) (b : Nat) : Except Err Heap := do
  deref b
  let s1 ← (if (s.mem b).prev = 0 then
              (if (s.mem b).next ≠ 0 then pure { s with head := (s.mem b).next }
               else pure { s with head := 0 })
            else do
              deref (s.mem b).prev
              pure (setNext s (s.mem b).prev (s.mem b).next))
  if (s1.mem b).next ≠ 0 then do
    deref (s1.mem b).next
    pure (setPrev s1 (s1.mem b).next (s1.mem b).prev)
  else pure s1

/-- The body of the `if( ptr->size >= size )` branch of `_malloc`. -/
def mallocHit (fuel : Nat) (s : Heap) (ptr size : Nat) : Except Err (Heap × Nat) := do
  let s1 ← removeFromFreeList s ptr
  if (s1.mem ptr).size = size then pure (s1, BLOCK_MEM ptr)
  else do
    let (s2, newBlock) ← splitBlock s1 ptr size
    let s3 ← addToFreeList fuel s2 newBlock
    pure (s3, BLOCK_MEM ptr)

/-- The part of `_malloc` after the search loop: ask the OS for more memory. -/
def mallocGrow (fuel : Nat) (cfg : Config) (s : Heap) (size : Nat) :
    Except Err (Heap × Nat) := do
  let alloc_size :=
    if size ≥ cfg.ALLOC_UNIT then (size + sizeofBlock) % WORD else cfg.ALLOC_UNIT
  let (s1, ptr) := sbrk s alloc_size
  deref ptr
  let s2 := setPrev s1 ptr 0
  let s3 := setNext s2 ptr 0
  let s4 := setSize s3 ptr ((alloc_size + WORD - sizeofBlock) % WORD)
  if alloc_size > (size + sizeofBlock) % WORD then do
    let (s5, newBlock) ← splitBlock s4 ptr size
    let s6 ← addToFreeList fuel s5 newBlock
    pure (s6, BLOCK_MEM ptr)
  else pure (s4, BLOCK_MEM ptr)

/-- The search loop of `_malloc`, continued by the rest of the function. -/
def mallocScan : Nat → Config → Heap → Nat → Nat → Except Err (Heap × Nat)
  | 0, _, _, _, _ => Except.error Err.fuel
  | fuel + 1, cfg, s, ptr, size =>
    if ptr = 0 then mallocGrow (fuel + 1) cfg s size
    else do
      deref ptr
      if (s.mem ptr).size ≥ size then mallocHit (fuel + 1) s ptr size
      else mallocScan fuel cfg s (s.mem ptr).next size

/-- The function `_malloc`: the new state and the returned pointer. -/
def _malloc (fuel : Nat) (cfg : Config) (s : Heap) (size : Nat) :
    Except Err (Heap × Nat) :=
  mallocScan fuel cfg s s.head size

/-- The `while` loop of `scanAndCoalesce`: the state and `curr` at its exit. -/
def scanLoop : Nat → Heap → Nat → Except Err (Heap × Nat)
  | 0, _, _ => Except.error Err.fuel
  | fuel + 1, s, curr => do
    deref curr
    if (s.mem curr).next = 0 then pure (s, curr)
    else if (curr + sizeofBlock + (s.mem curr).size) % WORD = (s.mem curr).next then do
      deref (s.mem curr).next
      let s1 := setSize s curr
        (((s.mem curr).size + ((s.mem (s.mem curr).next).size + sizeofBlock) % WORD) % WORD)
      let s2 := setNext s1 curr (s1.mem (s1.mem curr).next).next
      deref (s2.mem curr).next
      if (s2.mem (s2.mem curr).next).next ≠ 0 then do
        deref (s2.mem (s2.mem curr).next).next
        let s3 := setPrev s2 (s2.mem (s2.mem curr).next).next curr
        scanLoop fuel s3 (s3.mem curr).next
      else pure (s2, curr)
    else scanLoop fuel s (s.mem curr).next

/-- The function `scanAndCoalesce`. -/
def scanAndCoalesce (fuel : Nat) (cfg : Config) (s : Heap) : Except Err Heap := do
  let (s1, curr) ← scanLoop fuel s s.head
  stats fuel s1
  let (s2, program_break) := sbrk s1 0
  if program_break = 0 then pure s2
  else if (curr + (s2.mem curr).size + sizeofBlock) % WORD = program_break
      ∧ (s2.mem curr).size ≥ cfg.MIN_DEALLOC then do
    let s3 ← removeFromFreeList s2 curr
    let (s4, _) := brk s3 curr
    pure s4
  else pure s2

/-- The function `_free`. -/
def _free (fuel : Nat) (cfg : Config) (s : Heap) (addr : Nat) : Except Err Heap := do
  let block_addr := BLOCK_HEADER addr
  let s1 ← addToFreeList fuel s block_addr
  stats fuel s1
  scanAndCoalesce fuel cfg s1

/-- The function `cleanup`. -/
def cleanup (s : Heap) : Heap :=
  let s1 := if s.head ≠ 0 then (brk s s.head).1 else s
  { s1 with head := 0 }

/-! ## Observations -/

/-- The free list as the sequence of `(address, size)` met from `ptr` along the
`next` fields (at most `fuel` entries). -/
def listFrom : Nat → Heap → Nat → List (Nat × Nat)
  | 0, _, _ => []
  | fuel + 1, s, ptr =>
    if ptr = 0 then [] else (ptr, (s.mem ptr).size) :: listFrom fuel s (s.mem ptr).next

/-- The free list reachable from `head`. -/
def freeList (fuel : Nat) (s : Heap) : List (Nat × Nat) :=
  listFrom fuel s s.head

/-- A fresh arena: empty free list, break at `start`, and an operating system
that accepts every break from `start` up to `limit`. -/
def fresh (start limit : Nat) : Heap :=
  { head := 0
    brk := start
    osAccepts := fun a => decide (start ≤ a ∧ a ≤ limit)
    mem := fun _ => { prev := 0, next := 0, size := 0 } }

/-- The fresh arena used by the concrete runs: break at `2 ^ 20`, growth
granted up to `2 ^ 32`. -/
def arena : Heap := fresh 1048576 4294967296

/-- A well-formed arena with four adjacent 64-byte-or-larger blocks: `X` at
`1048576` (free, 64 bytes), `Y` at `1048664` (allocated, 64 bytes), `W` at
`1048752` (allocated, 64 bytes) and `Z` at `1048840` (free, 5000 bytes) which
ends exactly at the break `1053864`. The free list is `X, Z`. -/
def tailArena : Heap :=
  { head := 1048576
    brk := 1053864
    osAccepts := fun a => decide (1048576 ≤ a ∧ a ≤ 4294967296)
    mem := fun a =>
      if a = 1048576 then { prev := 0, next := 1048840, size := 64 }
      else if a = 1048664 then { prev := 0, next := 0, size := 64 }
      else if a = 1048752 then { prev := 0, next := 0, size := 64 }
      else if a = 1048840 then { prev := 1048576, next := 0, size := 5000 }
      else { prev := 0, next := 0, size := 0 } }

/-- A fresh arena whose OS grants the first growth by `ALLOC_UNIT` (and any
later growth) but never accepts a break below `1060864`. -/
def stickyArena : Heap :=
  { arena with osAccepts := fun a => decide (1060864 ≤ a ∧ a ≤ 4294967296) }

/-- The state in which `_free( p1 )` of `main` calls `scanAndCoalesce`, under
the OS of `stickyArena`: after `_malloc( 64 )`, `_malloc( 1 )` and the
insertion of the first block into the free list. -/
def beforeRefusedShrink : Heap :=
  match (do let (s1, p1) ← _malloc 50 defaultConfig stickyArena 64
            let (s2, _) ← _malloc 50 defaultConfig s1 1
            addToFreeList 50 s2 (BLOCK_HEADER p1) : Except Err Heap) with
  | Except.ok s => s
  | Except.error _ => stickyArena

/-! ## Well-formed free lists -/

/-- The header at `p` can be read and written: `p` is not `NULL` and the
header and its payload pointer lie below the top of the address space. -/
def validPtr (p : Nat) : Prop := p ≠ 0 ∧ p + sizeofBlock < WORD

instance validPtrDecidable (p : Nat) : Decidable (validPtr p) :=
  inferInstanceAs (Decidable (p ≠ 0 ∧ p + sizeofBlock < WORD))

/-- The list `l` of addresses is laid out in memory as a doubly-linked list
that starts at pointer `p`, whose first node has `prev` field `prev`, whose
`next` fields chain the nodes in order, whose `prev` fields point back, and
whose last `next` field is `NULL`. -/
def dll (s : Heap) : Nat → Nat → List Nat → Prop
  | _, p, [] => p = 0
  | prev, p, a :: l => p = a ∧ validPtr a ∧ (s.mem a).prev = prev ∧ dll s a (s.mem a).next l

instance dllDecidable (s : Heap) : (l : List Nat) → (prev p : Nat) → Decidable (dll s prev p l)
  | [], _, p => inferInstanceAs (Decidable (p = 0))
  | a :: l, prev, p =>
    have := dllDecidable s l a (s.mem a).next
    inferInstanceAs
      (Decidable (p = a ∧ validPtr a ∧ (s.mem a).prev = prev ∧ dll s a (s.mem a).next l))

/-- A well-formed free list with entries `l`: consistent `prev`/`next` links
from `head`, and strictly increasing addresses. -/
def WellFormed (s : Heap) (l : List Nat) : Prop :=
  dll s 0 s.head l ∧ l.Pairwise (fun a b => a < b)

instance wellFormedDecidable (s : Heap) (l : List Nat) : Decidable (WellFormed s l) :=
  inferInstanceAs (Decidable (dll s 0 s.head l ∧ l.Pairwise (fun a b => a < b)))

/-- No entry of `l` ends exactly where its successor in `l` starts (the test
of the coalescing loop fails on every consecutive pair). -/
def noAdjacent (s : Heap) : List Nat → Prop
  | [] => True
  | [_] => True
  | a :: b :: l => (a + sizeofBlock + (s.mem a).size) % WORD ≠ b ∧ noAdjacent s (b :: l)

instance noAdjacentDecidable (s : Heap) : (l : List Nat) → Decidable (noAdjacent s l)
  | [] => inferInstanceAs (Decidable True)
  | [_] => inferInstanceAs (Decidable True)
  | a :: b :: l =>
    have := noAdjacentDecidable s (b :: l)
    inferInstanceAs
      (Decidable ((a + sizeofBlock + (s.mem a).size) % WORD ≠ b ∧ noAdjacent s (b :: l)))

/-- The blocks of `l` lie in address order without overlap at or below the
break: every entry ends at or before the start of its successor in `l`, and
the last entry ends at or before the break. -/
def packed (s : Heap) : List Nat → Prop
  | [] => True
  | [a] => a + sizeofBlock + (s.mem a).size ≤ s.brk
  | a :: b :: l => a + sizeofBlock + (s.mem a).size ≤ b ∧ packed s (b :: l)

instance packedDecidable (s : Heap) : (l : List Nat) → Decidable (packed s l)
  | [] => inferInstanceAs (Decidable True)
  | [a] => inferInstanceAs (Decidable (a + sizeofBlock + (s.mem a).size ≤ s.brk))
  | a :: b :: l =>
    have := packedDecidable s (b :: l)
    inferInstanceAs
      (Decidable (a + sizeofBlock + (s.mem a).size ≤ b ∧ packed s (b :: l)))

/-- The test made on `curr` after the loop of `scanAndCoalesce`: the block at
`t` ends at the break and has at least `MIN_DEALLOC` bytes. -/
def releasable (cfg : Config) (s : Heap) (t : Nat) : Prop :=
  s.brk ≠ 0 ∧ (t + (s.mem t).size + sizeofBlock) % WORD = s.brk
    ∧ (s.mem t).size ≥ cfg.MIN_DEALLOC

instance releasableDecidable (cfg : Config) (s : Heap) (t : Nat) :
    Decidable (releasable cfg s t) :=
  inferInstanceAs (Decidable (s.brk ≠ 0 ∧ (t + (s.mem t).size + sizeofBlock) % WORD = s.brk
    ∧ (s.mem t).size ≥ cfg.MIN_DEALLOC))

/-- State left by `removeFromFreeList` when the removed block follows `x` and
is followed by the entries `post`. -/
def unlinkMid (s : Heap) (x : Nat) (post : List Nat) : Heap :=
  match post with
  | [] => setNext s x 0
  | c :: _ => setPrev (setNext s x c) c x

/-- State left by `removeFromFreeList` when the removed block is the head and
is followed by the entries `post`. -/
def unlinkHead (s : Heap) (post : List Nat) : Heap :=
  match post with
  | [] => { s with head := 0 }
  | c :: _ => setPrev { s with head := c } c 0

@[simp] theorem setPrev_prev (s : Heap) (p v a : Nat) :
    ((setPrev s p v).mem a).prev = if a = p then v else (s.mem a).prev := by
  unfold setPrev; by_cases h : a = p <;> simp [h]

@[simp] theorem setPrev_next (s : Heap) (p v a : Nat) :
    ((setPrev s p v).mem a).next = (s.mem a).next := by
  unfold setPrev; by_cases h : a = p <;> simp [h]

@[simp] theorem setPrev_size (s : Heap) (p v a : Nat) :
    ((setPrev s p v).mem a).size = (s.mem a).size := by
  unfold setPrev; by_cases h : a = p <;> simp [h]

@[simp] theorem setNext_prev (s : Heap) (p v a : Nat) :
    ((setNext s p v).mem a).prev = (s.mem a).prev := by
  unfold setNext; by_cases h : a = p <;> simp [h]

@[simp] theorem setNext_next (s : Heap) (p v a : Nat) :
    ((setNext s p v).mem a).next = if a = p then v else (s.mem a).next := by
  unfold setNext; by_cases h : a = p <;> simp [h]

@[simp] theorem setNext_size (s : Heap) (p v a : Nat) :
    ((setNext s p v).mem a).size = (s.mem a).size := by
  unfold setNext; by_cases h : a = p <;> simp [h]

@[simp] theorem setPrev_head (s : Heap) (p v : Nat) : (setPrev s p v).head = s.head := rfl
@[simp] theorem setNext_head (s : Heap) (p v : Nat) : (setNext s p v).head = s.head := rfl
@[simp] theorem setPrev_brk (s : Heap) (p v : Nat) : (setPrev s p v).brk = s.brk := rfl
@[simp] theorem setNext_brk (s : Heap) (p v : Nat) : (setNext s p v).brk = s.brk := rfl
@[simp] theorem setPrev_os (s : Heap) (p v : Nat) :
    (setPrev s p v).osAccepts = s.osAccepts := rfl
@[simp] theorem setNext_os (s : Heap) (p v : Nat) :
    (setNext s p v).osAccepts = s.osAccepts := rfl

theorem deref_ok {p : Nat} (h : validPtr p) : deref p = Except.ok () := by
  unfold deref
  have h1 : ¬ (p = 0 ∨ WORD ≤ p + sizeofBlock) := by
    rcases h with ⟨h0, h2⟩
    intro hc
    rcases hc with hc | hc
    · exact h0 hc
    · exact absurd h2 (Nat.not_lt.mpr hc)
  simp [h1]

/-- Only the `prev` and `next` fields of the listed nodes matter. -/
theorem dll_frame {s t : Heap} :
    ∀ (l : List Nat) (prev p : Nat),
      (∀ a ∈ l, (t.mem a).prev = (s.mem a).prev ∧ (t.mem a).next = (s.mem a).next) →
      dll s prev p l → dll t prev p l := by
  intro l
  induction l with
  | nil => intro prev p _ h; exact h
  | cons a l ih =>
    intro prev p hf h
    obtain ⟨hp, hv, hprev, hrest⟩ := h
    have ha := hf a (List.mem_cons_self a l)
    refine ⟨hp, hv, ?_, ?_⟩
    · rw [ha.1]; exact hprev
    · rw [ha.2]
      exact ih a _ (fun x hx => hf x (List.mem_cons_of_mem a hx)) hrest

/-- The traversal of `stats` reaches `NULL` on a linked list. -/
theorem statsLoop_ok {s : Heap} :
    ∀ (l : List Nat) (prev p fuel : Nat), dll s prev p l → l.length < fuel →
      statsLoop fuel s p = Except.ok () := by
  intro l
  induction l with
  | nil =>
    intro prev p fuel h hf
    cases fuel with
    | zero => exact absurd hf (Nat.lt_irrefl 0)
    | succ n =>
      have hp : p = 0 := h
      simp [statsLoop, hp]
  | cons a l ih =>
    intro prev p fuel h hf
    obtain ⟨hp, hv, _, hrest⟩ := h
    cases fuel with
    | zero => exact absurd hf (Nat.not_lt_zero _)
    | succ n =>
      subst hp
      have hl : l.length < n := by simpa using hf
      simp [statsLoop, hv.1, deref_ok hv, ih _ _ n hrest hl, bind, Except.bind]

/-- Fields of a node `b` that follows `x` in a linked list. -/
theorem dll_mid {s : Heap} {x b : Nat} {post : List Nat} :
    ∀ (pre : List Nat) (prev p : Nat), dll s prev p (pre ++ x :: b :: post) →
      validPtr x ∧ (s.mem x).next = b ∧ validPtr b ∧ (s.mem b).prev = x
        ∧ dll s b (s.mem b).next post := by
  intro pre
  induction pre with
  | nil =>
    intro prev p h
    obtain ⟨_, hvx, _, hb, hvb, hbp, hrest⟩ := h
    exact ⟨hvx, hb, hvb, hbp, hrest⟩
  | cons y pre ih =>
    intro prev p h
    exact ih _ _ h.2.2.2

/-- Unlinking the node between `x` and `post` keeps the rest linked. -/
theorem dll_unlinkMid {s : Heap} {x b : Nat} {post : List Nat} :
    ∀ (pre : List Nat) (prev p : Nat), dll s prev p (pre ++ x :: b :: post) →
      (pre ++ x :: b :: post).Nodup →
      dll (unlinkMid s x post) prev p (pre ++ x :: post) := by
  intro pre
  induction pre with
  | nil =>
    intro prev p h hn
    obtain ⟨hp, hvx, hxp, hb, hvb, hbp, hrest⟩ := h
    cases post with
    | nil =>
      refine ⟨hp, hvx, ?_, ?_⟩
      · simpa [unlinkMid] using hxp
      · simp [unlinkMid, dll]
    | cons c post =>
      obtain ⟨hc, hvc, hcp, hrest2⟩ := hrest
      simp only [List.nil_append, List.nodup_cons, List.mem_cons, not_or] at hn
      obtain ⟨⟨hxb, hxc, hxpost⟩, ⟨hbc, hbpost⟩, hcpost, _⟩ := hn
      refine ⟨hp, hvx, ?_, ?_⟩
      · simpa [unlinkMid, hxc] using hxp
      · have hnx : ((unlinkMid s x (c :: post)).mem x).next = c := by simp [unlinkMid]
        rw [hnx]
        refine ⟨rfl, hvc, by simp [unlinkMid], ?_⟩
        have hnc : ((unlinkMid s x (c :: post)).mem c).next = (s.mem c).next := by
          simp [unlinkMid, Ne.symm hxc]
        rw [hnc]
        refine dll_frame post c _ ?_ hrest2
        intro a ha
        have hac : a ≠ c := fun e => hcpost (e ▸ ha)
        have hax : a ≠ x := fun e => hxpost (e ▸ ha)
        simp [unlinkMid, hac, hax]
  | cons y pre ih =>
    intro prev p h hn
    obtain ⟨hp, hvy, hyp, hrest⟩ := h
    have hn2 : (pre ++ x :: b :: post).Nodup := (List.nodup_cons.mp hn).2
    have hy : y ∉ pre ++ x :: b :: post := (List.nodup_cons.mp hn).1
    have hyx : y ≠ x := fun e => hy (by simp [e])
    have hypost : y ∉ post := fun e => hy (by simp [e])
    have ih2 := ih y _ hrest hn2
    have hfy : ((unlinkMid s x post).mem y).prev = (s.mem y).prev
        ∧ ((unlinkMid s x post).mem y).next = (s.mem y).next := by
      cases post with
      | nil => simp [unlinkMid, hyx]
      | cons c post =>
        have hyc : y ≠ c := fun e => hypost (by simp [e])
        simp [unlinkMid, hyx, hyc]
    refine ⟨hp, hvy, ?_, ?_⟩
    · rw [hfy.1]; exact hyp
    · rw [hfy.2]; exact ih2

/-- Unlinking the head keeps the rest linked. -/
theorem dll_unlinkHead {s : Heap} {b : Nat} {post : List Nat}
    (h : dll s 0 s.head (b :: post)) (hn : (b :: post).Nodup) :
    dll (unlinkHead s post) 0 (unlinkHead s post).head post := by
  obtain ⟨_, _, _, hrest⟩ := h
  cases post with
  | nil => simp [unlinkHead, dll]
  | cons c post =>
    obtain ⟨hc, hvc, hcp, hrest2⟩ := hrest
    have hcpost : c ∉ post := (List.nodup_cons.mp (List.nodup_cons.mp hn).2).1
    refine ⟨by simp [unlinkHead], hvc, by simp [unlinkHead], ?_⟩
    have hnc : ((unlinkHead s (c :: post)).mem c).next = (s.mem c).next := by
      simp [unlinkHead]
    rw [hnc]
    refine dll_frame post c _ ?_ hrest2
    intro a ha
    have hac : a ≠ c := fun e => hcpost (e ▸ ha)
    simp [unlinkHead, hac]

theorem unlinkMid_size (s : Heap) (x : Nat) (post : List Nat) (a : Nat) :
    ((unlinkMid s x post).mem a).size = (s.mem a).size := by
  cases post <;> simp [unlinkMid]

theorem unlinkHead_size (s : Heap) (post : List Nat) (a : Nat) :
    ((unlinkHead s post).mem a).size = (s.mem a).size := by
  cases post <;> simp [unlinkHead]

theorem unlinkMid_brk (s : Heap) (x : Nat) (post : List Nat) :
    (unlinkMid s x post).brk = s.brk ∧ (unlinkMid s x post).osAccepts = s.osAccepts
      ∧ (unlinkMid s x post).head = s.head := by
  cases post <;> simp [unlinkMid]

theorem unlinkHead_brk (s : Heap) (post : List Nat) :
    (unlinkHead s post).brk = s.brk ∧ (unlinkHead s post).osAccepts = s.osAccepts := by
  cases post <;> simp [unlinkHead]

/-- The code of `removeFromFreeList` on the head of a linked list. -/
theorem removeFromFreeList_head {s : Heap} {b : Nat} {post : List Nat}
    (h : dll s 0 s.head (b :: post)) :
    removeFromFreeList s b = Except.ok (unlinkHead s post) := by
  obtain ⟨_, hvb, hbp, hrest⟩ := h
  cases post with
  | nil =>
    have hn : (s.mem b).next = 0 := hrest
    simp [removeFromFreeList, deref_ok hvb, hbp, hn, unlinkHead, bind, Except.bind, pure,
      Except.pure]
  | cons c post =>
    obtain ⟨hc, hvc, _, _⟩ := hrest
    simp [removeFromFreeList, deref_ok hvb, deref_ok hvc, hbp, hc, hvc.1, unlinkHead, bind,
      Except.bind, pure, Except.pure]

/-- The code of `removeFromFreeList` on a node that has a predecessor. -/
theorem removeFromFreeList_mid {s : Heap} {x b : Nat} {pre post : List Nat} {prev p : Nat}
    (h : dll s prev p (pre ++ x :: b :: post)) :
    removeFromFreeList s b = Except.ok (unlinkMid s x post) := by
  obtain ⟨hvx, _, hvb, hbp, hrest⟩ := dll_mid pre prev p h
  cases post with
  | nil =>
    have hn : (s.mem b).next = 0 := hrest
    simp [removeFromFreeList, deref_ok hvb, deref_ok hvx, hbp, hn, hvx.1, unlinkMid, bind,
      Except.bind, pure, Except.pure]
  | cons c post =>
    obtain ⟨hc, hvc, _, _⟩ := hrest
    simp [removeFromFreeList, deref_ok hvb, deref_ok hvx, deref_ok hvc, hbp, hc, hvx.1, hvc.1,
      unlinkMid, bind, Except.bind, pure, Except.pure]

/-- Strictly increasing lists have no repeated entry. -/
theorem nodup_of_increasing {l : List Nat} (h : l.Pairwise (fun a b => a < b)) : l.Nodup :=
  List.Pairwise.imp (fun hab => Nat.ne_of_lt hab) h

/-- Correctness of `removeFromFreeList` on a well-formed list: it returns, the
remaining entries keep their order, sizes and the break are untouched. -/
theorem removeFromFreeList_spec {s : Heap} {b : Nat} (pre post : List Nat)
    (hwf : WellFormed s (pre ++ b :: post)) :
    ∃ t, removeFromFreeList s b = Except.ok t ∧ WellFormed t (pre ++ post)
      ∧ (∀ a, (t.mem a).size = (s.mem a).size) ∧ t.brk = s.brk
      ∧ t.osAccepts = s.osAccepts := by
  obtain ⟨hd, hs⟩ := hwf
  have hsub : (pre ++ post).Pairwise (fun a b => a < b) :=
    List.Pairwise.sublist ((List.sublist_cons_self b post).append_left pre) hs
  have hnd := nodup_of_increasing hs
  rcases List.eq_nil_or_concat pre with hpre | ⟨pre1, x, hpre⟩
  · subst hpre
    refine ⟨unlinkHead s post, removeFromFreeList_head hd, ⟨?_, hsub⟩,
      unlinkHead_size s post, (unlinkHead_brk s post).1, (unlinkHead_brk s post).2⟩
    exact dll_unlinkHead hd hnd
  · subst hpre
    have hd2 : dll s 0 s.head (pre1 ++ x :: b :: post) := by simpa using hd
    have hnd2 : (pre1 ++ x :: b :: post).Nodup := by simpa using hnd
    refine ⟨unlinkMid s x post, removeFromFreeList_mid hd2, ⟨?_, hsub⟩,
      unlinkMid_size s x post, (unlinkMid_brk s x post).1, (unlinkMid_brk s x post).2.1⟩
    have := dll_unlinkMid pre1 0 s.head hd2 hnd2
    rw [(unlinkMid_brk s x post).2.2]
    simpa using this

/-- C15: let the block at `b` have size `S`, lie inside the address space
(`b` is not `NULL` and `b + sizeof( block ) + S` is below `2 ^ 64`), and let the
requested size satisfy `S > size + sizeof( block )`. Then `splitBlock` returns
the new block `b + sizeof( block ) + size`, sets the size of `b` to exactly
`size` and the size of the new block to `S - sizeof( block ) - size`, so that
header and payload bytes of the two blocks add up to those of the original
block; no other header, the list head or the break is touched. -/
theorem splitBlock_conserves_bytes (s : Heap) (b size : Nat)
    (hb : b ≠ 0)
    (hin : b + sizeofBlock + (s.mem b).size < WORD)
    (hgt : (s.mem b).size > size + sizeofBlock) :
    ∃ t, splitBlock s b size = Except.ok (t, b + sizeofBlock + size)
      ∧ (t.mem b).size = size
      ∧ (t.mem (b + sizeofBlock + size)).size = (s.mem b).size - sizeofBlock - size
      ∧ (sizeofBlock + size) + (sizeofBlock + (t.mem (b + sizeofBlock + size)).size)
          = sizeofBlock + (s.mem b).size
      ∧ (∀ a, a ≠ b → a ≠ b + sizeofBlock + size → t.mem a = s.mem a)
      ∧ t.head = s.head ∧ t.brk = s.brk := by
  have hvb : validPtr b := ⟨hb, by omega⟩
  have hnb : (b + sizeofBlock + size) % WORD = b + sizeofBlock + size :=
    Nat.mod_eq_of_lt (by omega)
  have hvn : validPtr (b + sizeofBlock + size) := ⟨by omega, by omega⟩
  have hne : b ≠ b + sizeofBlock + size := by unfold sizeofBlock; omega
  have hsz : ((s.mem b).size + WORD - (sizeofBlock + size) % WORD) % WORD
      = (s.mem b).size - sizeofBlock - size := by
    rw [Nat.mod_eq_of_lt (show sizeofBlock + size < WORD by omega)]
    have : (s.mem b).size + WORD - (sizeofBlock + size)
        = ((s.mem b).size - sizeofBlock - size) + WORD := by omega
    rw [this, Nat.add_mod_right]
    exact Nat.mod_eq_of_lt (by omega)
  refine ⟨setSize (setSize s (b + sizeofBlock + size) ((s.mem b).size - sizeofBlock - size)) b size,
    ?_, ?_, ?_, ?_, ?_, rfl, rfl⟩
  · unfold splitBlock
    simp only [hnb, deref_ok hvb, deref_ok hvn, hsz, bind, Except.bind, pure, Except.pure]
  · simp [setSize]
  · simp [setSize, hne.symm]
  · simp [setSize, hne.symm]
    omega
  · intro a hab han
    simp [setSize, hab, han]

/-- C15 on the 500-byte block of a concrete arena, split at 100 bytes. -/
theorem splitBlock_conserves_bytes_witness :
    ∃ t, splitBlock tailArena 1048840 100 = Except.ok (t, 1048840 + sizeofBlock + 100)
      ∧ (t.mem 1048840).size = 100
      ∧ (t.mem (1048840 + sizeofBlock + 100)).size
          = (tailArena.mem 1048840).size - sizeofBlock - 100
      ∧ (sizeofBlock + 100) + (sizeofBlock + (t.mem (1048840 + sizeofBlock + 100)).size)
          = sizeofBlock + (tailArena.mem 1048840).size
      ∧ (∀ a, a ≠ 1048840 → a ≠ 1048840 + sizeofBlock + 100 → t.mem a = tailArena.mem a)
      ∧ t.head = tailArena.head ∧ t.brk = tailArena.brk :=
  splitBlock_conserves_bytes tailArena 1048840 100 (by decide) (by decide) (by decide)

/-! ## Teardown -/

/-- The head of a well-formed list is its lowest address. -/
theorem head_le_of_wellFormed {s : Heap} {l : List Nat} (h : WellFormed s l) :
    ∀ a ∈ l, s.head ≤ a := by
  intro a ha
  cases l with
  | nil => cases ha
  | cons x rest =>
    have hx : s.head = x := h.1.1
    rcases List.mem_cons.mp ha with hax | hax
    · omega
    · have := (List.pairwise_cons.mp h.2).1 a hax
      omega

/-- C17: `cleanup` always leaves the free list empty. On an empty free list it
leaves the break where it is. On a non-empty well-formed free list whose head
address the OS accepts as the new break, the break moves to the head, which is
the lowest address of the list. -/
theorem cleanup_resets_break (s : Heap) (l : List Nat) (hwf : WellFormed s l)
    (hos : s.head ≠ 0 → s.osAccepts s.head = true) :
    (cleanup s).head = 0
    ∧ (s.head = 0 → (cleanup s).brk = s.brk)
    ∧ (s.head ≠ 0 → (cleanup s).brk = s.head ∧ ∀ a ∈ l, (cleanup s).brk ≤ a) := by
  refine ⟨rfl, ?_, ?_⟩
  · intro h0
    simp [cleanup, h0]
  · intro hne
    have hbrk : (cleanup s).brk = s.head := by
      simp [cleanup, hne, brk, hos hne]
    refine ⟨hbrk, ?_⟩
    rw [hbrk]
    exact head_le_of_wellFormed hwf

/-- C17 on a non-empty list (head `1048576`, entries `1048576, 1048840`) and
on the empty list of the fresh arena. -/
theorem cleanup_resets_break_witness :
    ((cleanup tailArena).head = 0
      ∧ (tailArena.head = 0 → (cleanup tailArena).brk = tailArena.brk)
      ∧ (tailArena.head ≠ 0 → (cleanup tailArena).brk = tailArena.head
          ∧ ∀ a ∈ [1048576, 1048840], (cleanup tailArena).brk ≤ a))
    ∧ tailArena.head = 1048576 ∧ arena.head = 0
    ∧ ((cleanup arena).head = 0
      ∧ (arena.head = 0 → (cleanup arena).brk = arena.brk)
      ∧ (arena.head ≠ 0 → (cleanup arena).brk = arena.head
          ∧ ∀ a ∈ [], (cleanup arena).brk ≤ a)) :=
  ⟨cleanup_resets_break tailArena [1048576, 1048840] (by decide) (fun _ => by decide),
   rfl, rfl,
   cleanup_resets_break arena [] (by decide) (fun h => absurd rfl h)⟩

/-! ## Misses of `_malloc` -/

/-- The coalescing loop moves neither the break nor the list head. -/
theorem scanLoop_keeps :
    ∀ (fuel : Nat) (s : Heap) (c : Nat) (t : Heap) (x : Nat),
      scanLoop fuel s c = Except.ok (t, x) →
      t.brk = s.brk ∧ t.osAccepts = s.osAccepts ∧ t.head = s.head := by
  intro fuel
  induction fuel with
  | zero =>
    intro s c t x h
    simp [scanLoop] at h
  | succ n ih =>
    intro s c t x h
    unfold scanLoop at h
    cases hd : deref c with
    | error e => simp [hd, bind, Except.bind] at h
    | ok u =>
      simp only [hd, bind, Except.bind] at h
      split at h
      · simp only [pure, Except.pure, Except.ok.injEq, Prod.mk.injEq] at h
        obtain ⟨rfl, _⟩ := h
        exact ⟨rfl, rfl, rfl⟩
      · split at h
        · cases hd2 : deref (s.mem c).next with
          | error e => simp [hd2] at h
          | ok u2 =>
            simp only [hd2] at h
            split at h
            · simp at h
            · split at h
              · split at h
                · simp at h
                · obtain ⟨h1, h2, h3⟩ := ih _ _ _ _ h
                  exact ⟨h1, h2, h3⟩
              · simp only [pure, Except.pure, Except.ok.injEq, Prod.mk.injEq] at h
                obtain ⟨rfl, _⟩ := h
                exact ⟨rfl, rfl, rfl⟩
        · exact ih _ _ _ _ h

/-- C16 (amended): let the coalescing loop of `scanAndCoalesce` end at the
block `curr` of the well-formed free list `pre ++ curr :: post`, let `curr`
end at the break with at least `MIN_DEALLOC` bytes, and let the OS refuse
`brk( curr )`. Then `scanAndCoalesce` returns, the break is where it was, no
size has changed, and the free list is `pre ++ post`: the block unlinked for
the shrink is not put back. -/
theorem refused_shrink_drops_block (cfg : Config) (s s1 : Heap) (pre post : List Nat)
    (curr fuel : Nat)
    (hscan : scanLoop fuel s s.head = Except.ok (s1, curr))
    (hwf : WellFormed s1 (pre ++ curr :: post))
    (hfuel : (pre ++ curr :: post).length < fuel)
    (hrel : releasable cfg s1 curr)
    (hos : s1.osAccepts curr = false) :
    ∃ t, scanAndCoalesce fuel cfg s = Except.ok t
      ∧ WellFormed t (pre ++ post)
      ∧ curr ∉ pre ++ post
      ∧ (∀ a, (t.mem a).size = (s1.mem a).size)
      ∧ t.brk = s.brk := by
  obtain ⟨t, ht, hwt, hsz, hbrk, host⟩ := removeFromFreeList_spec pre post hwf
  have hstats : statsLoop fuel s1 s1.head = Except.ok () :=
    statsLoop_ok _ 0 s1.head fuel hwf.1 hfuel
  have hkeep := scanLoop_keeps fuel s s.head s1 curr hscan
  have hrefuse : t.osAccepts curr = false := by rw [host]; exact hos
  refine ⟨t, ?_, hwt, ?_, hsz, hbrk.trans hkeep.1⟩
  · obtain ⟨h0, h1, h2⟩ := hrel
    simp [scanAndCoalesce, hscan, stats, hstats, sbrk, h0, h1, h2, ht, brk, hrefuse, bind,
      Except.bind, pure, Except.pure]
  · have hnd := nodup_of_increasing hwf.2
    intro hmem
    rcases List.mem_append.mp hmem with hm | hm
    · exact (List.nodup_append.mp hnd).2.2 hm (List.mem_cons_self curr post)
    · exact (List.nodup_cons.mp (List.nodup_append.mp hnd).2.1).1 hm

/-- C16 (amended) in the state of `main` under an OS that does not take memory
back: the remainder `1048689` ends at the break, is unlinked, and stays
unlinked when `brk` fails. -/
theorem refused_shrink_drops_block_witness :
    releasable defaultConfig beforeRefusedShrink 1048689
    ∧ beforeRefusedShrink.osAccepts 1048689 = false
    ∧ ∃ t, scanAndCoalesce 50 defaultConfig beforeRefusedShrink = Except.ok t
      ∧ WellFormed t ([1048576] ++ [])
      ∧ 1048689 ∉ [1048576] ++ []
      ∧ (∀ a, (t.mem a).size = (beforeRefusedShrink.mem a).size)
      ∧ t.brk = beforeRefusedShrink.brk :=
  ⟨by decide, by decide,
   refused_shrink_drops_block defaultConfig beforeRefusedShrink beforeRefusedShrink
     [1048576] [] 1048689 50 (by rfl) (by decide) (by decide) (by decide) (by decide)⟩

/-- C16 as stated fails: under an OS that grants growth but refuses to lower
the break, `_malloc( 64 )`, `_malloc( 1 )` and `_free` of the first pointer
unlink the remainder `(1048689, 12151)` for the shrink; `brk` is refused, the
break stays at `1060864`, and the free list afterwards holds only the released
block: the remainder is not re-inserted. -/
theorem refused_shrink_block_is_not_reinserted :
    (do let (s1, p1) ← _malloc 50 defaultConfig stickyArena 64
        let (s2, _) ← _malloc 50 defaultConfig s1 1
        let s3 ← _free 50 defaultConfig s2 p1
        pure (freeList 50 s2, s2.brk, s2.osAccepts 1048689, freeList 50 s3, s3.brk)
      : Except Err _)
    = Except.ok ([(1048689, 12151)], 1060864, false, [(1048576, 64)], 1060864) := by
  rfl

/-! ## The shrink after the coalescing pass -/

/-- C1: from the fresh arena, four allocations (64, 64, 500, 64 bytes) and
the release of the third, first and second pointer leave the free list
`(A, 152), (C, 500)`; the next `_malloc( 500 )` returns the payload of `C`
but `C` stays reachable from `head`, and a further `_malloc( 500 )` hands out
the same, still live, block a second time. -/
theorem live_block_stays_listed_and_is_handed_out_twice :
    (do let (s1, pA) ← _malloc 50 defaultConfig arena 64
        let (s2, pB) ← _malloc 50 defaultConfig s1 64
        let (s3, pC) ← _malloc 50 defaultConfig s2 500
        let (s4, _) ← _malloc 50 defaultConfig s3 64
        let s5 ← _free 50 defaultConfig s4 pC
        let s6 ← _free 50 defaultConfig s5 pA
        let s7 ← _free 50 defaultConfig s6 pB
        let (s8, q1) ← _malloc 50 defaultConfig s7 500
        let (s9, q2) ← _malloc 50 defaultConfig s8 500
        pure (pA, pB, pC, freeList 50 s7, q1, freeList 50 s8, q2, freeList 50 s9)
      : Except Err _)
    = Except.ok (1048600, 1048688, 1048776,
        [(1048576, 152), (1048752, 500)],
        1048776, [(1048576, 152), (1048752, 500)],
        1048776, [(1048576, 152), (1048752, 500)]) := by
  rfl

/-- C3: a first fit larger than the request is split without checking that
the remainder has room for a header. With the free list holding one 64-byte
block, `_malloc( 50 )` leaves a remainder at `block + 74` whose size is
`64 - 74` wrapped to `2 ^ 64 - 10`; and when the first fit is the last entry
of a two-entry list, re-inserting the remainder dereferences `NULL`. -/
theorem split_remainder_wraps_or_faults :
    (do let (s1, pA) ← _malloc 50 defaultConfig arena 64
        let (s2, _) ← _malloc 50 defaultConfig s1 64
        let s3 ← _free 50 defaultConfig s2 pA
        let (s4, q) ← _malloc 50 defaultConfig s3 50
        pure (freeList 50 s3, s3.brk, q, freeList 50 s4)
      : Except Err _)
    = Except.ok ([(1048576, 64)], 1048752, 1048600, [(1048650, 18446744073709551606)])
    ∧
    (do let (s1, pA) ← _malloc 50 defaultConfig arena 64
        let (s2, _) ← _malloc 50 defaultConfig s1 64
        let (s3, pC) ← _malloc 50 defaultConfig s2 500
        let (s4, _) ← _malloc 50 defaultConfig s3 64
        let s5 ← _free 50 defaultConfig s4 pC
        let s6 ← _free 50 defaultConfig s5 pA
        pure (freeList 50 s6, (_malloc 50 defaultConfig s6 100).map fun r => r.2)
      : Except Err _)
    = Except.ok ([(1048576, 64), (1048752, 500)], Except.error (Err.fault 0)) := by
  constructor <;> rfl

/-- C4: on the fresh arena with the default configuration, `_malloc( 12280 )`
misses the free list and advances the break by `ALLOC_UNIT = 12288`, not by
`12280 + 24`; the returned block records 12264 usable bytes. -/
theorem miss_below_unit_grows_by_unit_only :
    (_malloc 50 defaultConfig arena 12280).map
        (fun r => (r.1.brk - arena.brk, r.2, (r.1.mem (BLOCK_HEADER r.2)).size,
          freeList 50 r.1))
      = Except.ok (12288, 1048600, 12264, [])
    ∧ max (12280 + sizeofBlock) defaultConfig.ALLOC_UNIT = 12304 := by
  constructor <;> rfl

/-- C5: when the OS refuses to grow the heap, `sbrk` returns `(void *) -1`;
`_malloc` does not return a failure value but writes the header through that
pointer, which stops the program at address `2 ^ 64 - 1`. -/
theorem refused_growth_is_dereferenced :
    (sbrk (fresh 1048576 1048576) defaultConfig.ALLOC_UNIT).2 = WORD - 1
    ∧ (_malloc 50 defaultConfig (fresh 1048576 1048576) 64).map (fun r => r.2)
      = Except.error (Err.fault 18446744073709551615) := by
  constructor <;> rfl

/-- C6: with three 64-byte blocks allocated from the fresh arena, the first
two are address-adjacent; releasing them in either order stops the program
with a `NULL` dereference (in `addToFreeList` for the order first, second; in
`scanAndCoalesce` for the order second, first). -/
theorem releasing_adjacent_pair_faults :
    (do let (s1, pA) ← _malloc 50 defaultConfig arena 64
        let (s2, pB) ← _malloc 50 defaultConfig s1 64
        let (s3, _) ← _malloc 50 defaultConfig s2 64
        pure (pA, pB, (s3.mem (BLOCK_HEADER pA)).size,
          (do let t ← _free 50 defaultConfig s3 pA
              let u ← _free 50 defaultConfig t pB
              pure (freeList 50 u) : Except Err _),
          (do let t ← _free 50 defaultConfig s3 pB
              let u ← _free 50 defaultConfig t pA
              pure (freeList 50 u) : Except Err _))
      : Except Err _)
    = Except.ok (1048600, 1048688, 64, Except.error (Err.fault 0),
        Except.error (Err.fault 0)) := by
  rfl

/-- C7: the free list `A, B, C` of three contiguous 64-byte blocks (reached
by four allocations and the release of the third, first and second pointer)
is coalesced into `(A, 152), (C, 64)` only: `A` now ends exactly where its
successor `C` starts and the two are left unmerged. -/
theorem run_of_three_is_not_fully_merged :
    (do let (s1, pA) ← _malloc 50 defaultConfig arena 64
        let (s2, pB) ← _malloc 50 defaultConfig s1 64
        let (s3, pC) ← _malloc 50 defaultConfig s2 64
        let (s4, _) ← _malloc 50 defaultConfig s3 64
        let s5 ← _free 50 defaultConfig s4 pC
        let s6 ← _free 50 defaultConfig s5 pA
        let s7 ← _free 50 defaultConfig s6 pB
        pure (freeList 50 s6, freeList 50 s7)
      : Except Err _)
    = Except.ok ([(1048576, 64), (1048752, 64)], [(1048576, 152), (1048752, 64)])
    ∧ 1048576 + sizeofBlock + 152 = 1048752 := by
  constructor <;> rfl

/-- The early exit of the coalescing loop on the hand-built state `tailArena`:
releasing `Y` merges it into `X` and the loop leaves through its `break` with
`curr` at `X`, so the test after the loop is made on `X`; the last free block
`Z`, which ends exactly at the break and has 5000 bytes (at least
`MIN_DEALLOC`), stays on the free list and the break is not moved. -/
theorem trailing_block_is_not_returned :
    (_free 50 defaultConfig tailArena (BLOCK_MEM 1048664)).map
        (fun s => (freeList 50 s, s.brk))
      = Except.ok ([(1048576, 152), (1048840, 5000)], 1053864)
    ∧ 1048840 + sizeofBlock + 5000 = 1053864
    ∧ defaultConfig.MIN_DEALLOC ≤ 5000
    ∧ freeList 50 tailArena = [(1048576, 64), (1048840, 5000)] := by
  refine ⟨?_, ?_, ?_, ?_⟩
  · rfl
  · rfl
  · decide
  · rfl

/-- C10: from the fresh arena, `_malloc( 64 )` succeeds with the remainder
`(start + 88, 12176)` on the free list, and the immediate `_free` of the
returned pointer merges the block with that remainder and then dereferences
`NULL`: the release does not complete. -/
theorem alloc_then_release_faults :
    (_malloc 50 defaultConfig arena 64).map (fun r => (r.2, freeList 50 r.1))
      = Except.ok (1048600, [(1048664, 12176)])
    ∧ (do let (s1, p) ← _malloc 50 defaultConfig arena 64
          let s2 ← _free 50 defaultConfig s1 p
          pure (freeList 50 s2) : Except Err _)
      = Except.error (Err.fault 0) := by
  constructor <;> rfl

/-- C12: on the fresh arena with the default configuration `_malloc( 12280 )`
returns `1048600` and leaves the break at `1060864`, so the payload range
`[1048600, 1048600 + 12280)` ends 16 bytes above the break: the returned
block does not lie inside the managed region. -/
theorem payload_ends_above_break :
    (do let (s1, p) ← _malloc 50 defaultConfig arena 12280
        pure (arena.brk, p, s1.brk, decide (p + 12280 ≤ s1.brk)) : Except Err _)
      = Except.ok (1048576, 1048600, 1060864, false)
    ∧ 1048600 + 12280 = 1060864 + 16 := by
  constructor
  · rfl
  · decide

/-- C13: on the fresh arena, `_malloc( 64 )`, `_malloc( 64 )`, `_free` of the
first pointer and `_malloc( 50 )` leave the break at `1048752`, 176 bytes
above the start of the heap, with the live blocks `(1048576, 50)` and
`(1048664, 64)` and the free block `(1048650, 2 ^ 64 - 10)`: header plus size
summed over the three blocks is `2 ^ 64 + 176`, not 176. -/
theorem block_bytes_exceed_granted_bytes :
    (do let (s1, pA) ← _malloc 50 defaultConfig arena 64
        let (s2, pB) ← _malloc 50 defaultConfig s1 64
        let s3 ← _free 50 defaultConfig s2 pA
        let (s4, pE) ← _malloc 50 defaultConfig s3 50
        pure (pA, pB, pE, (s4.mem (BLOCK_HEADER pE)).size, (s4.mem (BLOCK_HEADER pB)).size,
          freeList 50 s4, s4.brk - arena.brk,
          (sizeofBlock + (s4.mem (BLOCK_HEADER pE)).size)
            + (sizeofBlock + (s4.mem (BLOCK_HEADER pB)).size)
            + ((freeList 50 s4).map (fun e => sizeofBlock + e.2)).sum) : Except Err _)
      = Except.ok (1048600, 1048688, 1048600, 50, 64, [(1048650, 18446744073709551606)], 176,
          18446744073709551792)
    ∧ 18446744073709551792 = 2 ^ 64 + 176 := by
  constructor
  · rfl
  · decide

/-- C14: on the fresh arena, three `_malloc( 64 )` and `_free` of the first
pointer leave the well-formed free list with the single entry `1048576`. The
third block `1048752` is not listed and lies above it, so it lands after the
last entry: `addToFreeList` dereferences `NULL` and does not complete. -/
theorem insert_after_last_entry_faults :
    (do let (s1, pA) ← _malloc 50 defaultConfig arena 64
        let (s2, _) ← _malloc 50 defaultConfig s1 64
        let (s3, pC) ← _malloc 50 defaultConfig s2 64
        let s4 ← _free 50 defaultConfig s3 pA
        pure (BLOCK_HEADER pC, freeList 50 s4, decide (WellFormed s4 [1048576]),
          (addToFreeList 50 s4 (BLOCK_HEADER pC)).map (freeList 50)) : Except Err _)
      = Except.ok (1048752, [(1048576, 64)], true, Except.error (Err.fault 0)) := by
  rfl

/-- C18: on the fresh arena with the default configuration `_malloc( 12287 )`
succeeds with the OS granting the growth (the break moves from `1048576` to
`1060864`), and the block whose payload pointer is returned records a usable
size of 12264 bytes, less than the 12287 requested. -/
theorem returned_block_smaller_than_request :
    (do let (s1, p) ← _malloc 50 defaultConfig arena 12287
        pure (p, s1.brk, (s1.mem (BLOCK_HEADER p)).size,
          decide (12287 ≤ (s1.mem (BLOCK_HEADER p)).size)) : Except Err _)
      = Except.ok (1048600, 1060864, 12264, false) := by
  rfl

/-- C19: on the fresh arena, four `_malloc( 64 )` give the blocks `1048576`,
`1048664`, `1048752` (and a fourth); after `_free` of the third and the first,
`addToFreeList` of the second yields the well-formed list of all three. The
coalescing pass on that list merges the second block into the first and
leaves the third block's `prev` pointing at the absorbed block `1048664`: the
resulting list `1048576, 1048752` is not consistently linked. -/
theorem coalescing_leaves_stale_prev :
    (do let (s1, pA) ← _malloc 50 defaultConfig arena 64
        let (s2, pB) ← _malloc 50 defaultConfig s1 64
        let (s3, pC) ← _malloc 50 defaultConfig s2 64
        let (s4, _) ← _malloc 50 defaultConfig s3 64
        let s5 ← _free 50 defaultConfig s4 pC
        let s6 ← _free 50 defaultConfig s5 pA
        let s7 ← addToFreeList 50 s6 (BLOCK_HEADER pB)
        let s8 ← scanAndCoalesce 50 defaultConfig s7
        pure (freeList 50 s7, decide (WellFormed s7 [1048576, 1048664, 1048752]),
          freeList 50 s8, (s8.mem 1048752).prev,
          decide (WellFormed s8 [1048576, 1048752])) : Except Err _)
      = Except.ok ([(1048576, 64), (1048664, 64), (1048752, 64)], true,
          [(1048576, 152), (1048752, 64)], 1048664, false) := by
  rfl

end MallocFree
